import Mathlib

/-!
Shallow embedding of the `utilLibs` transformer package
(`src/main/transformer/transformer.py`, `transformer_builder.py`, `main.py`).

Python strings are modeled as Lean `String` / `List Char`.  A file's content is
modeled as its decoded text (Python opens the files in text mode, so universal
newline translation has already happened and line breaks are a single `'\n'`).
The `utf-8-sig` codec is modeled by a `U+FEFF` prefix added on write and
stripped on read; since UTF-8 encoding of Unicode strings is injective, byte
equality of files on disk coincides with equality of these decoded strings.
-/

namespace UtilLibs

/-- ASCII lowercasing; agrees with Python `str.lower` on the ASCII paths the
claims quantify over. -/
def pyLowerChar (c : Char) : Char :=
  if 'A' ≤ c ∧ c ≤ 'Z' then Char.ofNat (c.toNat + 32) else c

/-- Index of the last occurrence of `c` in the list, if any. -/
def lastIndexOf : List Char → Char → Option Nat
  | [], _ => Option.none
  | x :: xs, c =>
    match lastIndexOf xs c with
    | Option.some i => Option.some (i + 1)
    | Option.none => if x = c then Option.some 0 else Option.none

/-- Python `s.rfind(c)`: index of the last occurrence of `c`, `-1` if absent. -/
def pyRfind (s : String) (c : Char) : Int :=
  match lastIndexOf s.data c with
  | Option.some i => (i : Int)
  | Option.none => -1

/-- Resolve a Python slice index against a length: a negative index counts from
the end (clamped at `0`); a nonnegative one is used as is (`List.take` /
`List.drop` clamp overlarge indices exactly as Python slices do). -/
def normIdx (len : Nat) (i : Int) : Nat :=
  if i < 0 then ((len : Int) + i).toNat else i.toNat

/-- Python `s[:i]`. -/
def pySliceUpTo (s : String) (i : Int) : String :=
  ⟨s.data.take (normIdx s.data.length i)⟩

/-- Python `s[i:]`. -/
def pySliceFrom (s : String) (i : Int) : String :=
  ⟨s.data.drop (normIdx s.data.length i)⟩

namespace Transformer_Selector

/-- `Transformer_Selector.__init__`: `file[file.rfind('.')+1:].lower()` —
the lowercased text after the last dot (the whole lowercased path when there
is no dot, since `rfind` returns `-1` and the slice starts at index `0`). -/
def extOf (file : String) : String :=
  ⟨(pySliceFrom file (pyRfind file '.' + 1)).data.map pyLowerChar⟩

/-- `Transformer_Selector.select`: `"csv_to_json"` when the stored input
extension is `"csv"` and the output extension is `"json"`, otherwise
`"unknown"`. -/
def select (input output : String) : String :=
  if extOf input = "csv" then
    if extOf output = "json" then "csv_to_json" else "unknown"
  else "unknown"

end Transformer_Selector

/-- The Unicode byte-order mark. -/
def bomChar : Char := Char.ofNat 0xFEFF

/-- Reading with `encoding="utf-8-sig"`: a leading BOM, if present, is
stripped from the decoded text. -/
def stripBomL : List Char → List Char
  | [] => []
  | c :: cs => if c = bomChar then cs else c :: cs

/-- `stripBomL` on strings. -/
def stripBom (s : String) : String := ⟨stripBomL s.data⟩

/-- Writing with `encoding="utf-8-sig"`: the file on disk decodes (as plain
UTF-8) to the text prefixed with the BOM. -/
def utf8sigFile (text : String) : String := ⟨bomChar :: text.data⟩

/-- Iterating a Python text file yields its lines in order, each line keeping
its trailing `'\n'`; a final segment without a newline is yielded as is. -/
def linesKeepAux : List Char → List Char → List (List Char)
  | acc, [] => if acc = [] then [] else [acc.reverse]
  | acc, c :: cs =>
    if c = '\n' then (acc.reverse ++ ['\n']) :: linesKeepAux [] cs
    else linesKeepAux (c :: acc) cs

/-- The lines of a text, trailing newlines kept. -/
def linesKeepEndsL (cs : List Char) : List (List Char) :=
  linesKeepAux [] cs

/-- Python `str.replace`: replace the non-overlapping occurrences of the
pattern `p` from left to right by `r` (an empty pattern inserts `r` between
consecutive characters and at both ends, as CPython does). -/
def replaceL (p r : List Char) : List Char → List Char
  | [] => if p = [] then r else []
  | c :: cs =>
    if p = [] then r ++ c :: replaceL p r cs
    else
      if p.isPrefixOf (c :: cs) then r ++ replaceL p r (cs.drop (p.length - 1))
      else c :: replaceL p r cs
termination_by s => s.length
decreasing_by
  all_goals simp only [List.length_cons, List.length_drop]
  all_goals omega

/-- Python `s.replace(old, new)` on strings. -/
def pyReplace (s old new : String) : String :=
  ⟨replaceL old.data new.data s.data⟩

namespace Delimiter_Transformer

/-- `Delimiter_Transformer.transform`, as the text written to the output
handler: each line of the input (read with a leading BOM stripped), in order,
with every occurrence of the delimiter replaced by `","`. -/
def transform (input delimiter : String) : String :=
  ⟨((linesKeepEndsL (stripBomL input.data)).map
      (fun row => replaceL delimiter.data [','] row)).flatten⟩

/-- The content of the output file on disk: the written text behind the
`utf-8-sig` codec, which prepends a BOM. -/
def written (input delimiter : String) : String :=
  utf8sigFile (transform input delimiter)

end Delimiter_Transformer

namespace Delimiter_Transformer_Builder

/-- `Delimiter_Transformer_Builder.__init__`: the output path is
`f"{input[:input.rfind('.')]}{suffix}{input[input.rfind('.'):]}"`
(the driver passes `"_temp"` as the `suffix` argument). -/
def outputFile (input suffix : String) : String :=
  pySliceUpTo input (pyRfind input '.') ++ suffix
    ++ pySliceFrom input (pyRfind input '.')

end Delimiter_Transformer_Builder

/-- Split a line on commas, keeping empty fields. -/
def splitCommaAux : List Char → List Char → List (List Char)
  | acc, [] => [acc.reverse]
  | acc, c :: cs =>
    if c = ',' then acc.reverse :: splitCommaAux [] cs
    else splitCommaAux (c :: acc) cs

/-- A line, its trailing newline removed (`csv.reader` strips the line
terminator before splitting). -/
def stripEol (l : List Char) : List Char :=
  if l.getLast? = Option.some '\n' then l.dropLast else l

/-- `csv.reader` on one line with `delimiter=","`, for the quote-free dialect
fragment (no claim involves quoted fields): split on commas, keeping empty
fields; an empty line yields the empty row. -/
def parseCsvLine (l : List Char) : List String :=
  if l = [] then [] else (splitCommaAux [] l).map (fun f => ⟨f⟩)

/-- The parsed rows of a csv text: its lines, minus line terminators, each
split on commas. -/
def csvRows (s : String) : List (List String) :=
  (linesKeepEndsL s.data).map (fun l => parseCsvLine (stripEol l))

/-- Python `dict` assignment `d[k] = v` on an insertion-ordered association
list with unique keys: update the value in place when the key is present,
append the pair otherwise. -/
def dictInsert [DecidableEq α] : List (α × β) → α → β → List (α × β)
  | [], k, v => [(k, v)]
  | p :: ps, k, v => if p.1 = k then (k, v) :: ps else p :: dictInsert ps k v

/-- Python `dict(zip(ks, vs))`. -/
def dictOfZip [DecidableEq α] (ks : List α) (vs : List β) : List (α × β) :=
  (List.zip ks vs).foldl (fun d p => dictInsert d p.1 p.2) []

/-- Keys of a Row Record: a header field name, or the `csv.DictReader`
restkey `None`. -/
inductive PyKey
  | str (s : String)
  | pynone
  deriving DecidableEq

/-- Values of a Row Record: a cell string, the restval `None` put under header
keys a short row leaves unmatched, or the list of extra cells a long row
stores under the restkey. -/
inductive PyVal
  | str (s : String)
  | pynone
  | strs (ss : List String)
  deriving DecidableEq

/-- One Row Record: an insertion-ordered field-name-to-value mapping. -/
abbrev Record := List (PyKey × PyVal)

/-- `csv.DictReader.__next__` on one non-blank row: `dict(zip(fieldnames,
row))`; when the row is longer than the header the extra cells are stored as a
list under the `None` restkey, and when it is shorter each remaining header
key is set to the `None` restval. -/
def dictReadRow (fieldnames row : List String) : Record :=
  if fieldnames.length < row.length then
    dictInsert
      ((dictOfZip fieldnames row).map (fun p => (PyKey.str p.1, PyVal.str p.2)))
      PyKey.pynone (PyVal.strs (row.drop fieldnames.length))
  else if row.length < fieldnames.length then
    (fieldnames.drop row.length).foldl
      (fun d k => dictInsert d (PyKey.str k) PyVal.pynone)
      ((dictOfZip fieldnames row).map (fun p => (PyKey.str p.1, PyVal.str p.2)))
  else
    (dictOfZip fieldnames row).map (fun p => (PyKey.str p.1, PyVal.str p.2))

/-- Iterating `csv.DictReader` over the data rows: blank rows are skipped, each
remaining row is read against the header. -/
def dictReadRows (fieldnames : List String) (rows : List (List String)) :
    List Record :=
  (rows.filter (fun r => !r.isEmpty)).map (dictReadRow fieldnames)

/-- Lowercase hexadecimal digit. -/
def hexDigitChar (n : Nat) : Char :=
  if n < 10 then Char.ofNat (48 + n) else Char.ofNat (87 + n)

/-- Four lowercase hexadecimal digits, as in Python's `\uXXXX` escapes. -/
def hex4 (n : Nat) : String :=
  ⟨[hexDigitChar (n / 4096 % 16), hexDigitChar (n / 256 % 16),
    hexDigitChar (n / 16 % 16), hexDigitChar (n % 16)]⟩

/-- `json.dumps` escaping of one character (`ensure_ascii=True`): named
escapes for quote, backslash and the common control characters, `\uXXXX` for
the remaining control and non-ASCII characters (a surrogate pair above the
basic multilingual plane). -/
def jsonEscapeChar (c : Char) : String :=
  if c = '"' then "\\\""
  else if c = '\\' then "\\\\"
  else if c = '\n' then "\\n"
  else if c = '\r' then "\\r"
  else if c = '\t' then "\\t"
  else if c.toNat = 8 then "\\b"
  else if c.toNat = 12 then "\\f"
  else if 32 ≤ c.toNat ∧ c.toNat ≤ 126 then ⟨[c]⟩
  else if c.toNat < 65536 then "\\u" ++ hex4 c.toNat
  else "\\u" ++ hex4 (55296 + (c.toNat - 65536) / 1024)
    ++ "\\u" ++ hex4 (56320 + (c.toNat - 65536) % 1024)

/-- A JSON string literal. -/
def jsonQuote (s : String) : String :=
  "\"" ++ String.join (s.data.map jsonEscapeChar) ++ "\""

/-- `n` spaces. -/
def sp (n : Nat) : String := ⟨List.replicate n ' '⟩

/-- A record key as `json.dumps` renders it: the `None` restkey becomes the
string key `"null"`. -/
def renderKey : PyKey → String
  | PyKey.str s => jsonQuote s
  | PyKey.pynone => jsonQuote "null"

/-- A list of strings as a JSON array at indentation level `lvl`. -/
def renderStrs (lvl : Nat) (ss : List String) : String :=
  if ss.isEmpty then "[]"
  else "[\n"
    ++ String.intercalate ",\n" (ss.map (fun s => sp ((lvl + 1) * 4) ++ jsonQuote s))
    ++ "\n" ++ sp (lvl * 4) ++ "]"

/-- A record value as `json.dumps` renders it: the restval `None` becomes
`null`. -/
def renderVal (lvl : Nat) : PyVal → String
  | PyVal.str s => jsonQuote s
  | PyVal.pynone => "null"
  | PyVal.strs ss => renderStrs lvl ss

/-- A Row Record as a JSON object at indentation level `lvl`. -/
def renderRecord (lvl : Nat) (r : Record) : String :=
  if r.isEmpty then "\x7b\x7d"
  else "\x7b\n"
    ++ String.intercalate ",\n"
      (r.map (fun p => sp ((lvl + 1) * 4) ++ renderKey p.1 ++ ": " ++ renderVal (lvl + 1) p.2))
    ++ "\n" ++ sp (lvl * 4) ++ "\x7d"

/-- `json.dumps(json_list, indent=4)`. -/
def jsonDumps (doc : List Record) : String :=
  if doc.isEmpty then "[]"
  else "[\n"
    ++ String.intercalate ",\n" (doc.map (fun r => sp 4 ++ renderRecord 1 r))
    ++ "\n]"

namespace CSV_to_JSON_Transformer

/-- The Document built by `CSV_to_JSON_Transformer.transform`: the input is
read with `utf-8-sig` (a leading BOM stripped), the first parsed row becomes
the header, and `csv.DictReader` turns each further non-blank row into a Row
Record. -/
def records (input : String) : List Record :=
  match csvRows (stripBom input) with
  | [] => []
  | header :: dataRows => dictReadRows header dataRows

/-- `CSV_to_JSON_Transformer.transform`: the text written to the output file
handler, paired with the return value `0`. -/
def transform (input : String) : String × Nat :=
  (jsonDumps (records input), 0)

/-- The content of the output file on disk: the written text behind the
`utf-8-sig` codec, which prepends a BOM. -/
def written (input : String) : String :=
  utf8sigFile (transform input).1

end CSV_to_JSON_Transformer

/-- A file system: paths to file contents. -/
def FS := String → Option String

namespace Main

/-- Writing a file (created or overwritten). -/
def writeFile (fs : FS) (p c : String) : FS :=
  fun q => if q = p then Option.some c else fs q

/-- Reading a file; a missing path raises an I/O error. -/
def readFile (fs : FS) (p : String) : Except Unit String :=
  match fs p with
  | Option.some c => Except.ok c
  | Option.none => Except.error ()

/-- Python truthiness of `args.delimiter` in `if args.delimiter:`. -/
def delimGiven : Option String → Bool
  | Option.none => false
  | Option.some d => d != ""

/-- The observable console output of the per-pair loop in `Main.run`: the
progress line printed for every pair, the overwrite warning, and the
no-transformer warning. -/
inductive Event
  | progress (inp out : String)
  | skipExisting (out : String)
  | noTransformer (tag : String)
  deriving DecidableEq

/-- One iteration of the loop in `Main.run` over an `(input, output)` pair:
print the progress line; when overwrite is disabled and the output path
already exists, warn and skip the pair; otherwise select the transformer by
extension and, on `"csv_to_json"`, convert — through the `_temp` sibling file
written by the normalizer when a delimiter was given — or warn and skip when
the selector answers `"unknown"`. -/
def processPair (overwrite : Bool) (delimiter : Option String) (fs : FS)
    (inp out : String) : Except Unit (FS × List Event) :=
  if !overwrite && (fs out).isSome then
    Except.ok (fs, [Event.progress inp out, Event.skipExisting out])
  else if Transformer_Selector.select inp out = "csv_to_json" then
    if delimGiven delimiter then
      match readFile fs inp with
      | Except.error e => Except.error e
      | Except.ok content =>
        match
          readFile
            (writeFile fs (Delimiter_Transformer_Builder.outputFile inp "_temp")
              (Delimiter_Transformer.written content (delimiter.getD "")))
            (Delimiter_Transformer_Builder.outputFile inp "_temp")
        with
        | Except.error e => Except.error e
        | Except.ok c2 =>
          Except.ok
            (writeFile
              (writeFile fs (Delimiter_Transformer_Builder.outputFile inp "_temp")
                (Delimiter_Transformer.written content (delimiter.getD "")))
              out (CSV_to_JSON_Transformer.written c2),
             [Event.progress inp out])
    else
      match readFile fs inp with
      | Except.error e => Except.error e
      | Except.ok content =>
        Except.ok (writeFile fs out (CSV_to_JSON_Transformer.written content),
          [Event.progress inp out])
  else
    Except.ok (fs, [Event.progress inp out,
      Event.noTransformer (Transformer_Selector.select inp out)])

/-- The loop of `Main.run` over the resolved pairs, threading the file system
and accumulating the console output; an uncaught I/O error aborts the whole
run. -/
def runPairs (overwrite : Bool) (delimiter : Option String) :
    FS → List (String × String) → List Event → Except Unit (FS × List Event)
  | fs, [], acc => Except.ok (fs, acc)
  | fs, p :: ps, acc =>
    match processPair overwrite delimiter fs p.1 p.2 with
    | Except.error e => Except.error e
    | Except.ok (fs2, evs) => runPairs overwrite delimiter fs2 ps (acc ++ evs)

end Main

/-- A file system holding exactly the file `"out.json"`; used as witness
input. -/
def fsWithOut : FS :=
  fun p => if p = "out.json" then Option.some "old" else Option.none

lemma lastIndexOf_eq_none {l : List Char} {c : Char} (h : c ∉ l) :
    lastIndexOf l c = Option.none := by
  induction l with
  | nil => rfl
  | cons x xs ih =>
    have hx : x ≠ c := fun hxc => h (hxc ▸ List.mem_cons_self x xs)
    have hxs : c ∉ xs := fun hm => h (List.mem_cons_of_mem x hm)
    simp [lastIndexOf, ih hxs, hx]

lemma extOf_of_no_dot {s : String} (h : '.' ∉ s.data) :
    Transformer_Selector.extOf s = ⟨s.data.map pyLowerChar⟩ := by
  unfold Transformer_Selector.extOf pySliceFrom pyRfind
  rw [lastIndexOf_eq_none h]
  simp [normIdx]

/-- Claim C4, counterexample: on input path `"a.xcsv"` and output path
`"b.json"` both case-insensitive ends-in tests of the claim succeed, yet the
selector returns `"unknown"` (it compares the text after the last dot, which is
`"xcsv"`), so "returns csv_to_json exactly when the paths end in csv/json" is
false. -/
theorem claim_C4_counterexample :
    List.isSuffixOf "csv".data ("a.xcsv".data.map pyLowerChar) = true
    ∧ List.isSuffixOf "json".data ("b.json".data.map pyLowerChar) = true
    ∧ Transformer_Selector.select "a.xcsv" "b.json" = "unknown" := by
  decide

/-- Claim C4 (amended): the selector returns `"csv_to_json"` exactly when the
lowercased text after the last dot of the input path equals `"csv"` and that of
the output path equals `"json"` (the whole lowercased path when there is no
dot); every other combination yields `"unknown"`; in particular
`select ("data.CSV", "out.JSON") = "csv_to_json"` and
`select ("data.txt", "out.json") = "unknown"`. -/
theorem claim_C4 (i o : String) :
    (Transformer_Selector.select i o = "csv_to_json"
      ↔ (Transformer_Selector.extOf i = "csv" ∧ Transformer_Selector.extOf o = "json"))
    ∧ (Transformer_Selector.select i o = "csv_to_json"
        ∨ Transformer_Selector.select i o = "unknown")
    ∧ Transformer_Selector.select "data.CSV" "out.JSON" = "csv_to_json"
    ∧ Transformer_Selector.select "data.txt" "out.json" = "unknown" := by
  refine ⟨?_, ?_, by decide, by decide⟩
  · by_cases h1 : Transformer_Selector.extOf i = "csv" <;>
      by_cases h2 : Transformer_Selector.extOf o = "json" <;>
        simp [Transformer_Selector.select, h1, h2]
  · by_cases h1 : Transformer_Selector.extOf i = "csv" <;>
      by_cases h2 : Transformer_Selector.extOf o = "json" <;>
        simp [Transformer_Selector.select, h1, h2]

/-- Claim C10: when a path contains no dot, `rfind` returns `-1`, the slice
starts at index `0`, and the selector treats the entire lowercased path as the
extension; in particular `select ("csv", "json") = "csv_to_json"`. -/
theorem claim_C10 (s : String) (h : '.' ∉ s.data) :
    Transformer_Selector.extOf s = ⟨s.data.map pyLowerChar⟩
    ∧ Transformer_Selector.select "csv" "json" = "csv_to_json" :=
  ⟨extOf_of_no_dot h, by decide⟩

/-- Witness for C10 at the dotless path `"csv"`. -/
theorem claim_C10_witness :
    ('.' ∉ "csv".data)
    ∧ (Transformer_Selector.extOf "csv" = ⟨"csv".data.map pyLowerChar⟩
        ∧ Transformer_Selector.select "csv" "json" = "csv_to_json") :=
  ⟨by decide, claim_C10 "csv" (by decide)⟩

lemma join_linesKeepAux (cs : List Char) :
    ∀ acc, (linesKeepAux acc cs).flatten = acc.reverse ++ cs := by
  induction cs with
  | nil =>
    intro acc
    by_cases h : acc = [] <;> simp [linesKeepAux, h]
  | cons c cs ih =>
    intro acc
    by_cases h : c = '\n'
    · subst h
      simp [linesKeepAux, ih]
    · simp [linesKeepAux, h, ih]

lemma join_linesKeepEndsL (cs : List Char) : (linesKeepEndsL cs).flatten = cs := by
  simpa using join_linesKeepAux cs []

lemma replaceL_single (a b : Char) (l : List Char) :
    replaceL [a] [b] l = l.map (fun x => if x = a then b else x) := by
  induction l with
  | nil => simp [replaceL]
  | cons c cs ih =>
    rw [replaceL]
    by_cases h : c = a
    · subst h
      simp [List.isPrefixOf, ih]
    · have h' : (a == c) = false := by
        simp [Ne.symm h]
      simp [List.isPrefixOf, h', h, ih]

lemma replaceL_self (a : Char) (l : List Char) : replaceL [a] [a] l = l := by
  rw [replaceL_single]
  have h : (fun x : Char => if x = a then a else x) = fun x => x := by
    funext x
    by_cases hx : x = a <;> simp [hx]
  rw [h, List.map_id']

lemma transform_comma (t : String) :
    Delimiter_Transformer.transform t "," = stripBom t := by
  unfold Delimiter_Transformer.transform
  have hfun : (fun row => replaceL (",".data) [','] row)
      = fun row : List Char => row := by
    funext row
    exact replaceL_self ',' row
  rw [hfun, List.map_id', join_linesKeepEndsL]
  rfl

/-- Claim C3, counterexample: on the already comma-delimited, BOM-less input
`"a,b\n"` the normalizer's output file is the input text with a byte-order
mark prepended by the `utf-8-sig` codec, hence not byte-identical to the
input. -/
theorem claim_C3_counterexample :
    Delimiter_Transformer.written "a,b\n" "," = ⟨bomChar :: "a,b\n".data⟩
    ∧ Delimiter_Transformer.written "a,b\n" "," ≠ "a,b\n" := by
  have h : Delimiter_Transformer.written "a,b\n" "," = ⟨bomChar :: "a,b\n".data⟩ := by
    unfold Delimiter_Transformer.written utf8sigFile
    rw [transform_comma "a,b\n"]
    have h2 : stripBom "a,b\n" = "a,b\n" := by decide
    rw [h2]
  refine ⟨h, ?_⟩
  rw [h]
  decide

/-- Claim C3 (amended): running the normalizer with delimiter `","` on a
comma-delimited file leaves the decoded text unchanged, and the output file is
that text prefixed with a byte-order mark; the output is therefore
byte-identical to the input exactly when the input already begins with a BOM
(in particular, re-running the normalizer on its own output is
byte-identical). -/
theorem claim_C3 (s : String) :
    Delimiter_Transformer.transform s "," = stripBom s
    ∧ Delimiter_Transformer.written s "," = utf8sigFile (stripBom s)
    ∧ Delimiter_Transformer.written ⟨bomChar :: s.data⟩ ","
        = ⟨bomChar :: s.data⟩ := by
  refine ⟨transform_comma s, ?_, ?_⟩
  · unfold Delimiter_Transformer.written
    rw [transform_comma s]
  · unfold Delimiter_Transformer.written utf8sigFile
    rw [transform_comma ⟨bomChar :: s.data⟩]
    have h : stripBom ⟨bomChar :: s.data⟩ = ⟨s.data⟩ := by
      simp [stripBom, stripBomL]
    rw [h]

lemma lastIndexOf_append_cons (a b : List Char) (c : Char) (h : c ∉ b) :
    lastIndexOf (a ++ c :: b) c = Option.some a.length := by
  induction a with
  | nil => simp [lastIndexOf, lastIndexOf_eq_none h]
  | cons x xs ih => simp [lastIndexOf, ih]

lemma stringDataEq {s t : String} (h : s.data = t.data) : s = t := by
  cases s
  cases t
  exact congrArg String.mk h

/-- Claim C8, counterexample: the claim quantifies over every input path, but
on the dotless path `"data"` the builder's `rfind` returns `-1`, so the Python
slices split at the last character and the temporary path is `"dat_tempa"`,
not stem + `"_temp"` + extension (which would be `"data_temp"`). -/
theorem claim_C8_counterexample :
    Delimiter_Transformer_Builder.outputFile "data" "_temp" = "dat_tempa"
    ∧ Delimiter_Transformer_Builder.outputFile "data" "_temp" ≠ "data_temp" := by
  decide

/-- Claim C8 (amended): for every input path with a dot-free extension
(`stem ++ "." ++ ext` with no dot in `ext`), the temporary file built by
`Delimiter_Transformer_Builder` with suffix argument `"_temp"` is the stem,
followed by `"_temp"`, followed by the original extension including the dot;
for a dotless path `rfind` returns `-1` and the slices instead split at the
last character, as the counterexample shows. -/
theorem claim_C8 (stem ext : String) (h : '.' ∉ ext.data) :
    Delimiter_Transformer_Builder.outputFile (stem ++ "." ++ ext) "_temp"
      = stem ++ "_temp" ++ "." ++ ext := by
  have hdata : (stem ++ "." ++ ext).data = stem.data ++ '.' :: ext.data := by
    simp [String.data_append]
  have hfind : pyRfind (stem ++ "." ++ ext) '.' = (stem.data.length : Int) := by
    unfold pyRfind
    rw [hdata, lastIndexOf_append_cons _ _ _ h]
  have hnorm : normIdx (stem ++ "." ++ ext).data.length (stem.data.length : Int)
      = stem.data.length := by
    unfold normIdx
    rw [if_neg (by omega)]
    omega
  have h1 : pySliceUpTo (stem ++ "." ++ ext) (pyRfind (stem ++ "." ++ ext) '.')
      = stem := by
    unfold pySliceUpTo
    rw [hfind, hnorm]
    apply stringDataEq
    show List.take stem.data.length (stem ++ "." ++ ext).data = stem.data
    rw [hdata]
    exact List.take_left stem.data ('.' :: ext.data)
  have h2 : pySliceFrom (stem ++ "." ++ ext) (pyRfind (stem ++ "." ++ ext) '.')
      = ⟨'.' :: ext.data⟩ := by
    unfold pySliceFrom
    rw [hfind, hnorm]
    apply stringDataEq
    show List.drop stem.data.length (stem ++ "." ++ ext).data = '.' :: ext.data
    rw [hdata]
    exact List.drop_left stem.data ('.' :: ext.data)
  unfold Delimiter_Transformer_Builder.outputFile
  rw [h1, h2]
  apply stringDataEq
  simp [String.data_append]

/-- Witness for C8 at `stem = "data"`, `ext = "csv"`. -/
theorem claim_C8_witness :
    ('.' ∉ "csv".data)
    ∧ Delimiter_Transformer_Builder.outputFile ("data" ++ "." ++ "csv") "_temp"
        = "data" ++ "_temp" ++ "." ++ "csv" :=
  ⟨by decide, claim_C8 "data" "csv" (by decide)⟩

/-- Claim C9: both transformers open their output file with the `utf-8-sig`
encoding, so every file they write begins with the UTF-8 byte-order mark — in
particular the JSON document on disk is BOM-prefixed rather than plain
BOM-free UTF-8. -/
theorem claim_C9 (input delimiter : String) :
    CSV_to_JSON_Transformer.written input
      = utf8sigFile (CSV_to_JSON_Transformer.transform input).1
    ∧ (CSV_to_JSON_Transformer.written input).data.head? = Option.some bomChar
    ∧ Delimiter_Transformer.written input delimiter
        = utf8sigFile (Delimiter_Transformer.transform input delimiter)
    ∧ (Delimiter_Transformer.written input delimiter).data.head?
        = Option.some bomChar :=
  ⟨rfl, rfl, rfl, rfl⟩

lemma linesKeepAux_no_newline :
    ∀ (cs acc : List Char), '\n' ∉ cs →
      linesKeepAux acc cs
        = if acc.reverse ++ cs = [] then [] else [acc.reverse ++ cs] := by
  intro cs
  induction cs with
  | nil =>
    intro acc h
    by_cases ha : acc = [] <;> simp [linesKeepAux, ha]
  | cons c cs ih =>
    intro acc h
    have hc : c ≠ '\n' := fun hc => h (hc ▸ List.mem_cons_self c cs)
    have hcs : '\n' ∉ cs := fun hm => h (List.mem_cons_of_mem c hm)
    simp only [linesKeepAux, if_neg hc]
    rw [ih (c :: acc) hcs]
    simp

lemma linesKeepAux_trailing :
    ∀ (cs acc : List Char), '\n' ∉ cs →
      linesKeepAux acc (cs ++ ['\n']) = [acc.reverse ++ cs ++ ['\n']] := by
  intro cs
  induction cs with
  | nil =>
    intro acc h
    simp [linesKeepAux]
  | cons c cs ih =>
    intro acc h
    have hc : c ≠ '\n' := fun hc => h (hc ▸ List.mem_cons_self c cs)
    have hcs : '\n' ∉ cs := fun hm => h (List.mem_cons_of_mem c hm)
    simp only [List.cons_append, List.append_eq, linesKeepAux, if_neg hc]
    rw [ih (c :: acc) hcs]
    simp

lemma mem_stripBomL {x : Char} {cs : List Char} (h : x ∈ stripBomL cs) :
    x ∈ cs := by
  cases cs with
  | nil => simp [stripBomL] at h
  | cons c cs' =>
    by_cases hc : c = bomChar
    · rw [stripBomL, if_pos hc] at h
      exact List.mem_cons_of_mem _ h
    · rwa [stripBomL, if_neg hc] at h

lemma records_of_short (input : String)
    (hlen : (linesKeepEndsL (stripBom input).data).length ≤ 1) :
    CSV_to_JSON_Transformer.records input = [] := by
  cases hl : linesKeepEndsL (stripBom input).data with
  | nil =>
    unfold CSV_to_JSON_Transformer.records csvRows
    rw [hl]
    rfl
  | cons l ls =>
    have hls : ls = [] := by
      rw [hl] at hlen
      simpa using hlen
    subst hls
    unfold CSV_to_JSON_Transformer.records csvRows
    rw [hl]
    rfl

/-- Claim C7: an input file holding only a header line and zero data rows
(with or without the trailing newline) makes the converter write exactly the
empty JSON array `"[]"`. -/
theorem claim_C7 (s : String) (h : '\n' ∉ s.data) :
    (CSV_to_JSON_Transformer.transform (s ++ "\n")).1 = "[]"
    ∧ (CSV_to_JSON_Transformer.transform s).1 = "[]" := by
  constructor
  · have hdata : (stripBom (s ++ "\n")).data = stripBomL (s.data ++ ['\n']) := by
      show stripBomL (s ++ "\n").data = _
      rw [String.data_append]
    have hstrip : ∃ t, stripBomL (s.data ++ ['\n']) = t ++ ['\n'] ∧ '\n' ∉ t := by
      cases hs : s.data with
      | nil =>
        refine ⟨[], ?_, by simp⟩
        simp [stripBomL]
        decide
      | cons a rest =>
        by_cases ha : a = bomChar
        · refine ⟨rest, ?_, ?_⟩
          · simp [stripBomL, ha]
          · intro hm
            exact h (hs ▸ List.mem_cons_of_mem a hm)
        · refine ⟨a :: rest, ?_, ?_⟩
          · simp [stripBomL, ha]
          · rw [← hs]
            exact h
    obtain ⟨t, ht, hnt⟩ := hstrip
    have hlen : (linesKeepEndsL (stripBom (s ++ "\n")).data).length ≤ 1 := by
      rw [hdata, ht]
      unfold linesKeepEndsL
      rw [linesKeepAux_trailing t [] hnt]
      simp
    have hrec := records_of_short _ hlen
    show jsonDumps (CSV_to_JSON_Transformer.records (s ++ "\n")) = "[]"
    rw [hrec]
    rfl
  · have hlen : (linesKeepEndsL (stripBom s).data).length ≤ 1 := by
      have hns : '\n' ∉ (stripBom s).data := fun hm => h (mem_stripBomL hm)
      unfold linesKeepEndsL
      rw [linesKeepAux_no_newline _ [] hns]
      split <;> simp
    have hrec := records_of_short _ hlen
    show jsonDumps (CSV_to_JSON_Transformer.records s) = "[]"
    rw [hrec]
    rfl

/-- Witness for C7 at the header-only file `"name,age\n"`. -/
theorem claim_C7_witness :
    ('\n' ∉ "name,age".data)
    ∧ ((CSV_to_JSON_Transformer.transform ("name,age" ++ "\n")).1 = "[]"
        ∧ (CSV_to_JSON_Transformer.transform "name,age").1 = "[]") :=
  ⟨by decide, claim_C7 "name,age" (by decide)⟩

lemma lookup_dictInsert_self [DecidableEq α] (d : List (α × β)) (k : α) (v : β) :
    List.lookup k (dictInsert d k v) = Option.some v := by
  induction d with
  | nil => simp [dictInsert, List.lookup]
  | cons p ps ih =>
    obtain ⟨a, b⟩ := p
    by_cases hp : a = k
    · subst hp
      simp [dictInsert, List.lookup]
    · have hk : (k == a) = false := by
        simp [Ne.symm hp]
      simp [dictInsert, hp, List.lookup, hk, ih]

lemma lookup_dictInsert_other [DecidableEq α] (d : List (α × β)) (k k' : α)
    (v : β) (h : k' ≠ k) :
    List.lookup k' (dictInsert d k v) = List.lookup k' d := by
  induction d with
  | nil =>
    have hk : (k' == k) = false := by simp [h]
    simp [dictInsert, List.lookup, hk]
  | cons p ps ih =>
    obtain ⟨a, b⟩ := p
    by_cases hp : a = k
    · subst hp
      have hk : (k' == a) = false := by simp [h]
      simp [dictInsert, List.lookup, hk]
    · simp [dictInsert, hp, List.lookup, ih]

lemma lookup_foldl_pad_of_not_mem (ks : List String) (d : Record) (k : String)
    (h : k ∉ ks) :
    List.lookup (PyKey.str k)
      (ks.foldl (fun d k' => dictInsert d (PyKey.str k') PyVal.pynone) d)
    = List.lookup (PyKey.str k) d := by
  induction ks generalizing d with
  | nil => rfl
  | cons a ks ih =>
    have ha : k ≠ a := fun he => h (he ▸ List.mem_cons_self a ks)
    have hks : k ∉ ks := fun hm => h (List.mem_cons_of_mem a hm)
    have hne : PyKey.str k ≠ PyKey.str a := by
      simpa using ha
    simp only [List.foldl_cons]
    rw [ih _ hks, lookup_dictInsert_other _ _ _ _ hne]

lemma lookup_foldl_pad (ks : List String) (d : Record) (k : String)
    (h : k ∈ ks) :
    List.lookup (PyKey.str k)
      (ks.foldl (fun d k' => dictInsert d (PyKey.str k') PyVal.pynone) d)
    = Option.some PyVal.pynone := by
  induction ks generalizing d with
  | nil => cases h
  | cons a ks ih =>
    simp only [List.foldl_cons]
    by_cases hk : k ∈ ks
    · exact ih _ hk
    · have hka : k = a := by
        rcases List.mem_cons.mp h with h1 | h2
        · exact h1
        · exact absurd h2 hk
      subst hka
      rw [lookup_foldl_pad_of_not_mem ks _ k hk, lookup_dictInsert_self]

/-- Claim C2, counterexample: with header `["a", "b"]` and the short row
`["1"]` the unmatched key `"b"` is not missing — the record maps it to the
`None` restval — and with header `["a"]` and the long row `["1", "2"]` the
extra cell `"2"` is not dropped — it is kept, as a list, under the `None`
restkey. -/
theorem claim_C2_counterexample :
    (dictReadRow ["a", "b"] ["1"]).map Prod.fst = [PyKey.str "a", PyKey.str "b"]
    ∧ dictReadRow ["a", "b"] ["1"]
        = [(PyKey.str "a", PyVal.str "1"), (PyKey.str "b", PyVal.pynone)]
    ∧ dictReadRow ["a"] ["1", "2"]
        = [(PyKey.str "a", PyVal.str "1"), (PyKey.pynone, PyVal.strs ["2"])] := by
  decide

/-- Claim C2 (amended): each data row is positionally zipped against the
header; a row shorter than the header yields a record in which every unmatched
header key is present and mapped to the `None` restval (serialized as `null`),
and a row longer than the header yields a record in which the extra values
beyond the header length are not dropped but stored, as a list, under the
`None` restkey (serialized under the object key `"null"`). -/
theorem claim_C2 (header row : List String) :
    (∀ k ∈ header.drop row.length,
        List.lookup (PyKey.str k) (dictReadRow header row)
          = Option.some PyVal.pynone)
    ∧ (header.length < row.length →
        List.lookup PyKey.pynone (dictReadRow header row)
          = Option.some (PyVal.strs (row.drop header.length))) := by
  constructor
  · intro k hk
    have hlt : row.length < header.length := by
      by_contra hge
      push_neg at hge
      rw [List.drop_eq_nil_of_le hge] at hk
      cases hk
    unfold dictReadRow
    rw [if_neg (by omega), if_pos hlt]
    exact lookup_foldl_pad _ _ _ hk
  · intro hlt
    unfold dictReadRow
    rw [if_pos hlt]
    exact lookup_dictInsert_self _ _ _

/-- Witness for C2: a short row against header `["x", "a"]` and a long row
against header `["x"]`. -/
theorem claim_C2_witness :
    ("a" ∈ ["x", "a"].drop ["v"].length)
    ∧ List.lookup (PyKey.str "a") (dictReadRow ["x", "a"] ["v"])
        = Option.some PyVal.pynone
    ∧ (["x"].length < ["1", "2"].length)
    ∧ List.lookup PyKey.pynone (dictReadRow ["x"] ["1", "2"])
        = Option.some (PyVal.strs (["1", "2"].drop ["x"].length)) :=
  ⟨by decide, (claim_C2 ["x", "a"] ["v"]).1 "a" (by decide), by decide,
    (claim_C2 ["x"] ["1", "2"]).2 (by decide)⟩

lemma keys_dictInsert_sublist [DecidableEq α] (d : List (α × β)) (k : α)
    (v : β) :
    List.Sublist ((dictInsert d k v).map Prod.fst) (d.map Prod.fst ++ [k]) := by
  induction d with
  | nil => simp [dictInsert]
  | cons p ps ih =>
    obtain ⟨a, b⟩ := p
    by_cases hp : a = k
    · subst hp
      simp only [dictInsert, if_pos rfl, List.map_cons, List.cons_append]
      exact List.Sublist.cons₂ _ (List.sublist_append_left _ _)
    · simp only [dictInsert, if_neg hp, List.map_cons, List.cons_append]
      exact List.Sublist.cons₂ _ ih

lemma keys_foldl_dictInsert_sublist [DecidableEq α] (ps : List (α × β)) :
    ∀ d : List (α × β),
      List.Sublist ((ps.foldl (fun d p => dictInsert d p.1 p.2) d).map Prod.fst)
        (d.map Prod.fst ++ ps.map Prod.fst) := by
  induction ps with
  | nil =>
    intro d
    simp
  | cons p ps ih =>
    intro d
    simp only [List.foldl_cons, List.map_cons]
    refine (ih (dictInsert d p.1 p.2)).trans ?_
    have h2 := (keys_dictInsert_sublist d p.1 p.2).append_right (ps.map Prod.fst)
    simpa [List.append_assoc] using h2

lemma map_fst_zip_sublist (ks : List String) :
    ∀ vs : List String, List.Sublist ((List.zip ks vs).map Prod.fst) ks := by
  induction ks with
  | nil =>
    intro vs
    simp
  | cons k ks ih =>
    intro vs
    cases vs with
    | nil => simp
    | cons v vs => simpa using List.Sublist.cons₂ k (ih vs)

lemma keys_dictOfZip_sublist (ks vs : List String) :
    List.Sublist ((dictOfZip ks vs).map Prod.fst) ks := by
  have h := keys_foldl_dictInsert_sublist (List.zip ks vs) ([] : List (String × String))
  simp only [List.map_nil, List.nil_append] at h
  exact h.trans (map_fst_zip_sublist ks vs)

/-- Claim C1: for a comma-delimited input (quote-free dialect) whose parsed
form is a header followed by data rows that are non-blank and as wide as the
header, `CSV_to_JSON_Transformer.transform` writes the JSON serialization of a
Document of exactly one Row Record per data row, each record's keys drawn from
the header in header order, all values cell strings, and it returns `0`. -/
theorem claim_C1 (input : String) (header : List String)
    (dataRows : List (List String))
    (hrows : csvRows (stripBom input) = header :: dataRows)
    (hwidth : ∀ r ∈ dataRows, r ≠ [] ∧ r.length = header.length) :
    (CSV_to_JSON_Transformer.transform input).2 = 0
    ∧ (CSV_to_JSON_Transformer.transform input).1
        = jsonDumps (CSV_to_JSON_Transformer.records input)
    ∧ (CSV_to_JSON_Transformer.records input).length = dataRows.length
    ∧ ∀ rec ∈ CSV_to_JSON_Transformer.records input,
        List.Sublist (rec.map Prod.fst) (header.map PyKey.str)
        ∧ ∀ p ∈ rec, ∃ s, p.2 = PyVal.str s := by
  have hfilter : dataRows.filter (fun r => !r.isEmpty) = dataRows := by
    apply List.filter_eq_self.mpr
    intro r hr
    have hne := (hwidth r hr).1
    simpa using hne
  have hrec : CSV_to_JSON_Transformer.records input
      = dataRows.map (dictReadRow header) := by
    unfold CSV_to_JSON_Transformer.records
    rw [hrows]
    show (dataRows.filter (fun r => !r.isEmpty)).map (dictReadRow header)
      = dataRows.map (dictReadRow header)
    rw [hfilter]
  refine ⟨rfl, rfl, ?_, ?_⟩
  · rw [hrec, List.length_map]
  · intro rec hmem
    rw [hrec] at hmem
    obtain ⟨r, hr, rfl⟩ := List.mem_map.mp hmem
    obtain ⟨hne, hlen⟩ := hwidth r hr
    have hbase : dictReadRow header r
        = (dictOfZip header r).map (fun p => (PyKey.str p.1, PyVal.str p.2)) := by
      unfold dictReadRow
      rw [if_neg (by omega), if_neg (by omega)]
    constructor
    · rw [hbase]
      have h1 : ((dictOfZip header r).map
            (fun p => (PyKey.str p.1, PyVal.str p.2))).map Prod.fst
          = ((dictOfZip header r).map Prod.fst).map PyKey.str := by
        simp [List.map_map]
      rw [h1]
      exact List.Sublist.map PyKey.str (keys_dictOfZip_sublist header r)
    · rw [hbase]
      intro p hp
      obtain ⟨q, _, rfl⟩ := List.mem_map.mp hp
      exact ⟨q.2, rfl⟩

/-- Witness for C1 at the two-line file `"a,b\nx,y\n"`. -/
theorem claim_C1_witness :
    (csvRows (stripBom "a,b\nx,y\n") = ["a", "b"] :: [["x", "y"]])
    ∧ (∀ r ∈ [["x", "y"]], r ≠ [] ∧ r.length = ["a", "b"].length)
    ∧ ((CSV_to_JSON_Transformer.transform "a,b\nx,y\n").2 = 0
        ∧ (CSV_to_JSON_Transformer.transform "a,b\nx,y\n").1
            = jsonDumps (CSV_to_JSON_Transformer.records "a,b\nx,y\n")
        ∧ (CSV_to_JSON_Transformer.records "a,b\nx,y\n").length
            = [["x", "y"]].length
        ∧ ∀ rec ∈ CSV_to_JSON_Transformer.records "a,b\nx,y\n",
            List.Sublist (rec.map Prod.fst) (["a", "b"].map PyKey.str)
            ∧ ∀ p ∈ rec, ∃ s, p.2 = PyVal.str s) :=
  ⟨by decide, by decide,
    claim_C1 "a,b\nx,y\n" ["a", "b"] [["x", "y"]] (by decide) (by decide)⟩

lemma linesKeepAux_map (f : Char → Char)
    (hf : ∀ x, (f x = '\n' ↔ x = '\n')) :
    ∀ (cs acc : List Char),
      linesKeepAux (acc.map f) (cs.map f)
        = (linesKeepAux acc cs).map (List.map f) := by
  intro cs
  induction cs with
  | nil =>
    intro acc
    by_cases ha : acc = []
    · subst ha
      simp [linesKeepAux]
    · have ha2 : acc.map f ≠ [] := by
        simpa using ha
      simp [linesKeepAux, ha, ha2]
  | cons c cs ih =>
    intro acc
    by_cases hc : c = '\n'
    · subst hc
      have hfc : f '\n' = '\n' := (hf '\n').mpr rfl
      have ihe : linesKeepAux [] (cs.map f)
          = (linesKeepAux [] cs).map (List.map f) := by
        simpa using ih []
      simp [linesKeepAux, hfc, ihe, List.map_reverse]
    · have hfc : f c ≠ '\n' := fun hx => hc ((hf c).mp hx)
      simp only [List.map_cons, linesKeepAux, if_neg hc, if_neg hfc]
      simpa using ih (c :: acc)

lemma transform_single_char (s : String) (c : Char) :
    Delimiter_Transformer.transform s ⟨[c]⟩
      = ⟨(stripBomL s.data).map (fun x => if x = c then ',' else x)⟩ := by
  unfold Delimiter_Transformer.transform
  apply stringDataEq
  show ((linesKeepEndsL (stripBomL s.data)).map
      (fun row => replaceL (String.mk [c]).data [','] row)).flatten
    = (stripBomL s.data).map (fun x => if x = c then ',' else x)
  have hfun : (fun row => replaceL (String.mk [c]).data [','] row)
      = fun row : List Char => row.map (fun x => if x = c then ',' else x) := by
    funext row
    exact replaceL_single c ',' row
  rw [hfun, ← List.map_flatten, join_linesKeepEndsL]

/-- Claim C5: for every input file and single-character delimiter other than
the newline, the normalizer writes the input's lines in order, each line with
every literal occurrence of the delimiter replaced by a comma, preserving
line count and trailing newline structure; on the concrete input
`"name;age\nAda;36\n"` with delimiter `";"` it produces
`"name,age\nAda,36\n"`, from which the converter produces the single record
mapping `"name"` to `"Ada"` and `"age"` to `"36"`. -/
theorem claim_C5 (s : String) (c : Char) (h : c ≠ '\n') :
    linesKeepEndsL (Delimiter_Transformer.transform s ⟨[c]⟩).data
      = (linesKeepEndsL (stripBomL s.data)).map
          (fun row => replaceL [c] [','] row)
    ∧ Delimiter_Transformer.transform "name;age\nAda;36\n" ";"
        = "name,age\nAda,36\n"
    ∧ CSV_to_JSON_Transformer.records "name,age\nAda,36\n"
        = [[(PyKey.str "name", PyVal.str "Ada"),
            (PyKey.str "age", PyVal.str "36")]] := by
  refine ⟨?_, ?_, by decide⟩
  · rw [transform_single_char]
    have hf : ∀ x : Char, ((if x = c then ',' else x) = '\n' ↔ x = '\n') := by
      intro x
      constructor
      · intro hx
        by_cases hxc : x = c
        · rw [if_pos hxc] at hx
          exact absurd hx (by decide)
        · rwa [if_neg hxc] at hx
      · intro hx
        subst hx
        rw [if_neg (fun he => h he.symm)]
    have hmain := linesKeepAux_map (fun x => if x = c then ',' else x) hf
      (stripBomL s.data) []
    have hfun : (fun row : List Char => replaceL [c] [','] row)
        = fun row => row.map (fun x => if x = c then ',' else x) := by
      funext row
      exact replaceL_single c ',' row
    rw [hfun]
    show linesKeepEndsL
        ((stripBomL s.data).map (fun x => if x = c then ',' else x)) = _
    unfold linesKeepEndsL
    simpa using hmain
  · rw [show (";" : String) = ⟨[';']⟩ from rfl, transform_single_char]
    decide

/-- Witness for C5 at the scenario input and delimiter `';'`. -/
theorem claim_C5_witness :
    (';' ≠ '\n')
    ∧ (linesKeepEndsL
          (Delimiter_Transformer.transform "name;age\nAda;36\n" ⟨[';']⟩).data
        = (linesKeepEndsL (stripBomL "name;age\nAda;36\n".data)).map
            (fun row => replaceL [';'] [','] row)
      ∧ Delimiter_Transformer.transform "name;age\nAda;36\n" ";"
          = "name,age\nAda,36\n"
      ∧ CSV_to_JSON_Transformer.records "name,age\nAda,36\n"
          = [[(PyKey.str "name", PyVal.str "Ada"),
              (PyKey.str "age", PyVal.str "36")]]) :=
  ⟨by decide, claim_C5 "name;age\nAda;36\n" ';' (by decide)⟩

/-- Claim C6: when the overwrite flag is false and a pair's output path
already exists, the driver prints the progress line, then warns and skips the
pair: the file system is returned unchanged (no file is created or modified),
the skip is a normal, non-error outcome, and the batch continues with the
remaining pairs. -/
theorem claim_C6 (fs : FS) (delimiter : Option String)
    (pairs : List (String × String)) (acc : List Main.Event)
    (inp out : String) (h : (fs out).isSome) :
    Main.processPair false delimiter fs inp out
      = Except.ok (fs,
          [Main.Event.progress inp out, Main.Event.skipExisting out])
    ∧ Main.runPairs false delimiter fs ((inp, out) :: pairs) acc
        = Main.runPairs false delimiter fs pairs
            (acc ++ [Main.Event.progress inp out,
              Main.Event.skipExisting out]) := by
  have hp : Main.processPair false delimiter fs inp out
      = Except.ok (fs,
          [Main.Event.progress inp out, Main.Event.skipExisting out]) := by
    unfold Main.processPair
    have hcond : (!false && (fs out).isSome) = true := by
      simp [h]
    rw [if_pos hcond]
  refine ⟨hp, ?_⟩
  show (match Main.processPair false delimiter fs inp out with
      | Except.error e => Except.error e
      | Except.ok (fs2, evs) =>
          Main.runPairs false delimiter fs2 pairs (acc ++ evs))
    = Main.runPairs false delimiter fs pairs
        (acc ++ [Main.Event.progress inp out, Main.Event.skipExisting out])
  rw [hp]

/-- Witness for C6: a file system in which `"out.json"` already exists, a
one-pair batch, overwrite disabled, no delimiter. -/
theorem claim_C6_witness :
    ((fsWithOut "out.json").isSome)
    ∧ (Main.processPair false Option.none fsWithOut "in.csv" "out.json"
        = Except.ok (fsWithOut,
            [Main.Event.progress "in.csv" "out.json",
             Main.Event.skipExisting "out.json"])
      ∧ Main.runPairs false Option.none fsWithOut [("in.csv", "out.json")] []
          = Main.runPairs false Option.none fsWithOut []
              ([] ++ [Main.Event.progress "in.csv" "out.json",
                Main.Event.skipExisting "out.json"])) :=
  ⟨by decide, claim_C6 fsWithOut Option.none [] [] "in.csv" "out.json" (by decide)⟩

end UtilLibs
